import Mathlib

/-!
Verification of the character-by-character typing-match engine of the
typing-practice application (`typing_game_gui.py`, class `TypingInputWidget`).

The session state consists of the target text, the caret position, the error
count and the total keystroke count.  The key-press handler evaluates one
logical input event at a time: an Enter/Return key press (special-cased in the
source), a plain character key press (non-empty text, no Ctrl/Alt modifier),
or any other event (passed through to the base widget, leaving session state
untouched).  The handler emits at most one progress outcome `(position,
isCorrect)` and possibly a completion signal.
-/

set_option autoImplicit false

namespace TypingGame

/-- Logical input event delivered to `keyPressEvent`: the Enter/Return key
(`Qt.Key_Return` / `Qt.Key_Enter`), a character key with non-empty `event.text()`
and no Ctrl/Alt modifier, or any other event (modifier-only / control events,
which fall through to `super().keyPressEvent`). -/
inductive KeyEvent where
  | enter : KeyEvent
  | char : Char → KeyEvent
  | other : KeyEvent
deriving DecidableEq, Repr

/-- Session state of `TypingInputWidget`: `_target_code`, `_current_position`,
`_error_count`, `_total_keystrokes`. -/
structure TypingInputWidget where
  target_code : List Char
  current_position : Nat
  error_count : Nat
  total_keystrokes : Nat
deriving DecidableEq, Repr

/-- Result of one call to `keyPressEvent`: the updated session state, the
`typing_progress` emission (position, correct?) if any, and whether the
`typing_complete` signal fired. -/
structure StepResult where
  state : TypingInputWidget
  progress : Option (Nat × Bool)
  complete : Bool
deriving DecidableEq, Repr

/-- `set_target_code`: install a new target and reset position, error count and
keystroke count to zero (the widget-text `clear()` is presentation only). -/
def set_target_code (_w : TypingInputWidget) (code : List Char) : TypingInputWidget :=
  { target_code := code
    current_position := 0
    error_count := 0
    total_keystrokes := 0 }

/-- Shorthand for an ignored event: state unchanged, nothing emitted. -/
def ignored (w : TypingInputWidget) : StepResult :=
  { state := w, progress := none, complete := false }

/-- `keyPressEvent`, translated branch by branch from the source.
The first guard is Python's `if not self._target_code: return` (empty target
ignores everything).  The Enter/Return branch checks `position < len(target)`,
reads the expected character, counts the keystroke, judges correctness against
the newline character, emits `(position, is_correct)`, and on a correct match
advances the position and checks completion.  The character branch does the
same with the typed character in place of the newline.  All other events leave
the session state unchanged. -/
def keyPressEvent (w : TypingInputWidget) (ev : KeyEvent) : StepResult :=
  if w.target_code = [] then
    ignored w
  else
    match ev with
    | KeyEvent.enter =>
      if h : w.current_position < w.target_code.length then
        let expected_char := w.target_code.get ⟨w.current_position, h⟩
        let is_correct : Bool := expected_char == '\n'
        let new_position := if is_correct then w.current_position + 1 else w.current_position
        { state :=
            { w with
              total_keystrokes := w.total_keystrokes + 1
              error_count := if is_correct then w.error_count else w.error_count + 1
              current_position := new_position }
          progress := some (w.current_position, is_correct)
          complete := is_correct && decide (w.target_code.length ≤ new_position) }
      else
        ignored w
    | KeyEvent.char typed_char =>
      if h : w.current_position < w.target_code.length then
        let expected_char := w.target_code.get ⟨w.current_position, h⟩
        let is_correct : Bool := typed_char == expected_char
        let new_position := if is_correct then w.current_position + 1 else w.current_position
        { state :=
            { w with
              total_keystrokes := w.total_keystrokes + 1
              error_count := if is_correct then w.error_count else w.error_count + 1
              current_position := new_position }
          progress := some (w.current_position, is_correct)
          complete := is_correct && decide (w.target_code.length ≤ new_position) }
      else
        ignored w
    | KeyEvent.other =>
      ignored w

/-- Error taxonomy of the matcher: `InvalidPosition` is an attempted read of the
expected character at or beyond the end of the target. -/
inductive TypingError where
  | invalidPosition : TypingError
deriving DecidableEq, Repr

/-- `expectedChar(position)`: the character of the target at `position`, when in
bounds. -/
def expectedCharAt (target : List Char) (position : Nat) : Option Char :=
  target.get? position

/-- `keyPressEvent` with the expected-character read made fallible: reading at
or beyond the end of the target is the `InvalidPosition` error instead of a
guarded total read.  Used to show the error is unreachable. -/
def keyPressEventE (w : TypingInputWidget) (ev : KeyEvent) :
    Except TypingError StepResult :=
  if w.target_code = [] then
    Except.ok (ignored w)
  else
    match ev with
    | KeyEvent.enter =>
      if w.current_position < w.target_code.length then
        match expectedCharAt w.target_code w.current_position with
        | none => Except.error TypingError.invalidPosition
        | some expected_char =>
          let is_correct : Bool := expected_char == '\n'
          let new_position := if is_correct then w.current_position + 1 else w.current_position
          Except.ok
            { state :=
                { w with
                  total_keystrokes := w.total_keystrokes + 1
                  error_count := if is_correct then w.error_count else w.error_count + 1
                  current_position := new_position }
              progress := some (w.current_position, is_correct)
              complete := is_correct && decide (w.target_code.length ≤ new_position) }
      else
        Except.ok (ignored w)
    | KeyEvent.char typed_char =>
      if w.current_position < w.target_code.length then
        match expectedCharAt w.target_code w.current_position with
        | none => Except.error TypingError.invalidPosition
        | some expected_char =>
          let is_correct : Bool := typed_char == expected_char
          let new_position := if is_correct then w.current_position + 1 else w.current_position
          Except.ok
            { state :=
                { w with
                  total_keystrokes := w.total_keystrokes + 1
                  error_count := if is_correct then w.error_count else w.error_count + 1
                  current_position := new_position }
              progress := some (w.current_position, is_correct)
              complete := is_correct && decide (w.target_code.length ≤ new_position) }
      else
        Except.ok (ignored w)
    | KeyEvent.other =>
      Except.ok (ignored w)

/-- `get_progress_percentage`: 0 for an empty target, else
`position / len(target) * 100` (real arithmetic modelled by rationals). -/
def get_progress_percentage (w : TypingInputWidget) : ℚ :=
  if w.target_code = [] then 0
  else ((w.current_position : ℚ) / (w.target_code.length : ℚ)) * 100

/-- `get_accuracy`: 100 when no keystroke was evaluated, else
`100 - errorCount / totalKeystrokes * 100`. -/
def get_accuracy (w : TypingInputWidget) : ℚ :=
  if w.total_keystrokes = 0 then 100
  else 100 - ((w.error_count : ℚ) / (w.total_keystrokes : ℚ) * 100)

/-- `get_wpm(elapsed_seconds)`: 0 when `elapsed_seconds == 0`; otherwise
`words / minutes` with `words = position / 5` and `minutes = elapsed / 60`
(with the source's redundant second zero-check on `minutes`). -/
def get_wpm (w : TypingInputWidget) (elapsed_seconds : ℚ) : ℚ :=
  if elapsed_seconds = 0 then 0
  else
    let words : ℚ := (w.current_position : ℚ) / 5
    let minutes : ℚ := elapsed_seconds / 60
    if minutes = 0 then 0
    else words / minutes

/-- Run a sequence of input events through `keyPressEvent`, returning the final
session state. -/
def runEvents (w : TypingInputWidget) : List KeyEvent → TypingInputWidget
  | [] => w
  | ev :: evs => runEvents (keyPressEvent w ev).state evs

/-- Run a sequence of input events, collecting every `typing_progress`
emission in order. -/
def runOutcomes (w : TypingInputWidget) : List KeyEvent → List (Nat × Bool)
  | [] => []
  | ev :: evs =>
    let r := keyPressEvent w ev
    (match r.progress with
     | some o => [o]
     | none => []) ++ runOutcomes r.state evs

/-- Run a sequence of input events, counting the `typing_complete` emissions. -/
def runCompletions (w : TypingInputWidget) : List KeyEvent → Nat
  | [] => 0
  | ev :: evs =>
    let r := keyPressEvent w ev
    (if r.complete then 1 else 0) + runCompletions r.state evs

/-- Modelled from the spec: the unified single-character transition rule of
§4.2 (steps 1–7), to which both source branches are compared.  In the
`InProgress` state (`position < length(target)`) the incoming logical character
`c` is judged against the expected character, the keystroke and error counters
are updated, the outcome `(position, isCorrect)` is emitted, the position
advances exactly on a correct match, and completion fires exactly when the
advanced position equals the target length; in `Idle` or `Complete` the event
is ignored. -/
def specTransition (w : TypingInputWidget) (c : Char) : StepResult :=
  if h : w.current_position < w.target_code.length then
    let expected := w.target_code.get ⟨w.current_position, h⟩
    let isCorrect : Bool := c == expected
    let newPosition := if isCorrect then w.current_position + 1 else w.current_position
    { state :=
        { w with
          total_keystrokes := w.total_keystrokes + 1
          error_count := if isCorrect then w.error_count else w.error_count + 1
          current_position := newPosition }
      progress := some (w.current_position, isCorrect)
      complete := decide (newPosition = w.target_code.length) }
  else
    ignored w

/-! Helper lemmas about one key press. -/

lemma target_ne_nil_of_lt {w : TypingInputWidget}
    (h : w.current_position < w.target_code.length) : ¬ w.target_code = [] := by
  intro he
  rw [he] at h
  simp at h

lemma char_beq_comm (a b : Char) : (a == b) = (b == a) := by
  by_cases h : a = b
  · simp [h]
  · simp [h, Ne.symm h]

/-- Case analysis for one key press: either the event is ignored outright
(state unchanged, nothing emitted), or the state is in progress and the step
performs the counted update for some correctness verdict `b`. -/
lemma keyPressEvent_cases (w : TypingInputWidget) (ev : KeyEvent) :
    keyPressEvent w ev = ignored w ∨
    ∃ b : Bool, w.current_position < w.target_code.length ∧
      keyPressEvent w ev =
        { state :=
            { w with
              total_keystrokes := w.total_keystrokes + 1
              error_count := if b then w.error_count else w.error_count + 1
              current_position := if b then w.current_position + 1 else w.current_position }
          progress := some (w.current_position, b)
          complete := b && decide (w.target_code.length ≤
            (if b then w.current_position + 1 else w.current_position)) } := by
  by_cases hne : w.target_code = []
  · left
    simp [keyPressEvent, hne]
  · cases ev with
    | enter =>
      by_cases h : w.current_position < w.target_code.length
      · right
        exact ⟨w.target_code.get ⟨w.current_position, h⟩ == '\n', h, by
          simp [keyPressEvent, hne, h]⟩
      · left
        simp [keyPressEvent, hne, h]
    | char c =>
      by_cases h : w.current_position < w.target_code.length
      · right
        exact ⟨c == w.target_code.get ⟨w.current_position, h⟩, h, by
          simp [keyPressEvent, hne, h]⟩
      · left
        simp [keyPressEvent, hne, h]
    | other =>
      left
      simp [keyPressEvent, hne]

lemma keyPressEvent_target_code (w : TypingInputWidget) (ev : KeyEvent) :
    (keyPressEvent w ev).state.target_code = w.target_code := by
  rcases keyPressEvent_cases w ev with hc | ⟨b, _, hc⟩ <;> rw [hc] <;> try rfl

lemma keyPressEvent_pos_le (w : TypingInputWidget) (ev : KeyEvent)
    (h : w.current_position ≤ w.target_code.length) :
    (keyPressEvent w ev).state.current_position ≤ w.target_code.length := by
  rcases keyPressEvent_cases w ev with hc | ⟨b, hlt, hc⟩ <;> rw [hc]
  · exact h
  · cases b <;> simp <;> omega

lemma keyPressEvent_err_le (w : TypingInputWidget) (ev : KeyEvent)
    (h : w.error_count ≤ w.total_keystrokes) :
    (keyPressEvent w ev).state.error_count ≤ (keyPressEvent w ev).state.total_keystrokes := by
  rcases keyPressEvent_cases w ev with hc | ⟨b, hlt, hc⟩ <;> rw [hc]
  · exact h
  · cases b <;> simp <;> omega

lemma keyPressEvent_mono (w : TypingInputWidget) (ev : KeyEvent) :
    w.current_position ≤ (keyPressEvent w ev).state.current_position ∧
    w.error_count ≤ (keyPressEvent w ev).state.error_count ∧
    w.total_keystrokes ≤ (keyPressEvent w ev).state.total_keystrokes := by
  rcases keyPressEvent_cases w ev with hc | ⟨b, hlt, hc⟩ <;> rw [hc]
  · exact ⟨le_refl _, le_refl _, le_refl _⟩
  · cases b <;> simp

/-- Frame rule: an event arriving in the `Idle` state (empty target) or the
`Complete` state (position at the end of the target) changes nothing and emits
nothing. -/
lemma keyPressEvent_frame (w : TypingInputWidget) (ev : KeyEvent)
    (h : w.target_code = [] ∨ w.current_position = w.target_code.length) :
    keyPressEvent w ev = ignored w := by
  rcases h with h | h
  · simp [keyPressEvent, h]
  · by_cases hne : w.target_code = []
    · simp [keyPressEvent, hne]
    · have hnlt : ¬ w.current_position < w.target_code.length := by omega
      cases ev <;> simp [keyPressEvent, hne, hnlt]

/-- A completion signal can fire only out of the `InProgress` state, and it
puts the position exactly at the end of the target. -/
lemma keyPressEvent_complete_char (w : TypingInputWidget) (ev : KeyEvent)
    (h : (keyPressEvent w ev).complete = true) :
    w.current_position < w.target_code.length ∧
    (keyPressEvent w ev).state.current_position = w.target_code.length := by
  rcases keyPressEvent_cases w ev with hc | ⟨b, hlt, hc⟩
  · rw [hc] at h
    simp [ignored] at h
  · rw [hc] at h ⊢
    cases b
    · simp at h
    · simp at h ⊢
      omega

/-! Helper lemmas about event sequences. -/

lemma runEvents_append (w : TypingInputWidget) (l₁ l₂ : List KeyEvent) :
    runEvents w (l₁ ++ l₂) = runEvents (runEvents w l₁) l₂ := by
  induction l₁ generalizing w with
  | nil => rfl
  | cons ev evs ih => simp [runEvents, ih]

lemma runEvents_target_code (w : TypingInputWidget) (evs : List KeyEvent) :
    (runEvents w evs).target_code = w.target_code := by
  induction evs generalizing w with
  | nil => rfl
  | cons ev evs ih => rw [runEvents, ih, keyPressEvent_target_code]

lemma runEvents_pos_le (w : TypingInputWidget) (evs : List KeyEvent)
    (h : w.current_position ≤ w.target_code.length) :
    (runEvents w evs).current_position ≤ (runEvents w evs).target_code.length := by
  induction evs generalizing w with
  | nil => exact h
  | cons ev evs ih =>
    rw [runEvents]
    exact ih _ (by rw [keyPressEvent_target_code]; exact keyPressEvent_pos_le w ev h)

lemma runEvents_err_le (w : TypingInputWidget) (evs : List KeyEvent)
    (h : w.error_count ≤ w.total_keystrokes) :
    (runEvents w evs).error_count ≤ (runEvents w evs).total_keystrokes := by
  induction evs generalizing w with
  | nil => exact h
  | cons ev evs ih =>
    rw [runEvents]
    exact ih _ (keyPressEvent_err_le w ev h)

lemma runEvents_mono (w : TypingInputWidget) (evs : List KeyEvent) :
    w.current_position ≤ (runEvents w evs).current_position ∧
    w.error_count ≤ (runEvents w evs).error_count ∧
    w.total_keystrokes ≤ (runEvents w evs).total_keystrokes := by
  induction evs generalizing w with
  | nil => exact ⟨le_refl _, le_refl _, le_refl _⟩
  | cons ev evs ih =>
    rw [runEvents]
    obtain ⟨h1, h2, h3⟩ := keyPressEvent_mono w ev
    obtain ⟨g1, g2, g3⟩ := ih (keyPressEvent w ev).state
    exact ⟨h1.trans g1, h2.trans g2, h3.trans g3⟩

lemma runEvents_frame (w : TypingInputWidget) (evs : List KeyEvent)
    (h : w.target_code = [] ∨ w.current_position = w.target_code.length) :
    runEvents w evs = w := by
  induction evs with
  | nil => rfl
  | cons ev evs ih => rw [runEvents, keyPressEvent_frame w ev h, ignored, ih]

lemma runOutcomes_frame (w : TypingInputWidget) (evs : List KeyEvent)
    (h : w.target_code = [] ∨ w.current_position = w.target_code.length) :
    runOutcomes w evs = [] := by
  induction evs with
  | nil => rfl
  | cons ev evs ih => rw [runOutcomes, keyPressEvent_frame w ev h, ignored] <;> simpa using ih

lemma runCompletions_frame (w : TypingInputWidget) (evs : List KeyEvent)
    (h : w.target_code = [] ∨ w.current_position = w.target_code.length) :
    runCompletions w evs = 0 := by
  induction evs with
  | nil => rfl
  | cons ev evs ih => rw [runCompletions, keyPressEvent_frame w ev h, ignored] <;> simpa using ih

/-- After any start state whose position is still within the target, the
completion signal fires at most once along any event sequence. -/
lemma runCompletions_le_one (w : TypingInputWidget) (evs : List KeyEvent)
    (h : w.current_position ≤ w.target_code.length) :
    runCompletions w evs ≤ 1 := by
  induction evs generalizing w with
  | nil => simp [runCompletions]
  | cons ev evs ih =>
    rw [runCompletions]
    by_cases hc : (keyPressEvent w ev).complete = true
    · have h2 := keyPressEvent_complete_char w ev hc
      have h0 : runCompletions (keyPressEvent w ev).state evs = 0 :=
        runCompletions_frame _ _ (Or.inr (by rw [keyPressEvent_target_code]; exact h2.2))
      simp [hc, h0]
    · have hle : (keyPressEvent w ev).state.current_position ≤
          (keyPressEvent w ev).state.target_code.length := by
        rw [keyPressEvent_target_code]
        exact keyPressEvent_pos_le w ev h
      simp only [hc, if_neg, Bool.not_eq_true] at hc ⊢
      simpa [hc] using ih _ hle

/-! Helper lemmas comparing the source branches with the unified rule. -/

lemma char_eq_specTransition (w : TypingInputWidget) (c : Char) :
    keyPressEvent w (KeyEvent.char c) = specTransition w c := by
  by_cases hne : w.target_code = []
  · have hnlt : ¬ w.current_position < w.target_code.length := by
      rw [hne]
      simp
    simp [keyPressEvent, specTransition, hne, hnlt]
  · by_cases h : w.current_position < w.target_code.length
    · simp only [keyPressEvent, specTransition, if_neg hne, dif_pos h]
      by_cases hc : c = w.target_code[w.current_position]
      · simp [hc, decide_eq_decide]
        omega
      · have hne2 : w.current_position ≠ w.target_code.length := Nat.ne_of_lt h
        simp [hc, hne2]
    · simp [keyPressEvent, specTransition, hne, h]

lemma enter_eq_specTransition (w : TypingInputWidget) :
    keyPressEvent w KeyEvent.enter = specTransition w '\n' := by
  by_cases hne : w.target_code = []
  · have hnlt : ¬ w.current_position < w.target_code.length := by
      rw [hne]
      simp
    simp [keyPressEvent, specTransition, hne, hnlt]
  · by_cases h : w.current_position < w.target_code.length
    · simp only [keyPressEvent, specTransition, if_neg hne, dif_pos h]
      by_cases hc : w.target_code[w.current_position] = '\n'
      · simp [hc, decide_eq_decide]
        omega
      · have hne2 : w.current_position ≠ w.target_code.length := Nat.ne_of_lt h
        simp [hc, Ne.symm hc, hne2]
    · simp [keyPressEvent, specTransition, hne, h]

/-- The fallible handler never reports `InvalidPosition` and agrees with the
total handler on every state and event. -/
lemma keyPressEventE_eq_ok (w : TypingInputWidget) (ev : KeyEvent) :
    keyPressEventE w ev = Except.ok (keyPressEvent w ev) := by
  by_cases hne : w.target_code = []
  · simp [keyPressEvent, keyPressEventE, hne]
  · cases ev with
    | enter =>
      by_cases h : w.current_position < w.target_code.length
      · simp [keyPressEvent, keyPressEventE, hne, h, expectedCharAt, List.get?_eq_get h]
      · simp [keyPressEvent, keyPressEventE, hne, h]
    | char c =>
      by_cases h : w.current_position < w.target_code.length
      · simp [keyPressEvent, keyPressEventE, hne, h, expectedCharAt, List.get?_eq_get h]
      · simp [keyPressEvent, keyPressEventE, hne, h]
    | other =>
      simp [keyPressEvent, keyPressEventE, hne]

/-! Claim theorems. -/

/-- Claim C1: for every target text and every evaluated keystroke in the
`InProgress` state (`position < length(target)`), processing one logical
character `c` increments `totalKeystrokes` by exactly 1, emits exactly one
outcome `(position_before, isCorrect)` with `isCorrect = (c == target[position_before])`,
increments `errorCount` by 1 exactly when the keystroke is incorrect, advances
`position` by 1 exactly when it is correct, and leaves the target unchanged. -/
theorem C1_keystroke_step (w : TypingInputWidget) (c : Char)
    (h : w.current_position < w.target_code.length) :
    (keyPressEvent w (KeyEvent.char c)).state.total_keystrokes = w.total_keystrokes + 1 ∧
    (keyPressEvent w (KeyEvent.char c)).progress =
      some (w.current_position, c == w.target_code[w.current_position]) ∧
    (keyPressEvent w (KeyEvent.char c)).state.error_count =
      (if c = w.target_code[w.current_position] then w.error_count else w.error_count + 1) ∧
    (keyPressEvent w (KeyEvent.char c)).state.current_position =
      (if c = w.target_code[w.current_position] then w.current_position + 1
       else w.current_position) ∧
    (keyPressEvent w (KeyEvent.char c)).state.target_code = w.target_code := by
  have hne := target_ne_nil_of_lt h
  simp [keyPressEvent, hne, h]

/-- Witness for C1: typing `'a'` against target `"ab"` at position 0 counts one
keystroke, reports outcome `(0, true)`, keeps the error count, and advances. -/
theorem C1_keystroke_step_witness :
    (keyPressEvent (⟨['a', 'b'], 0, 0, 0⟩ : TypingInputWidget)
        (KeyEvent.char 'a')).state.total_keystrokes = 1 ∧
    (keyPressEvent (⟨['a', 'b'], 0, 0, 0⟩ : TypingInputWidget)
        (KeyEvent.char 'a')).state.current_position = 1 := by
  have h := C1_keystroke_step ⟨['a', 'b'], 0, 0, 0⟩ 'a' (by decide)
  refine ⟨h.1, ?_⟩
  rw [h.2.2.2.1]
  decide

/-- Claim C2: the special-cased Enter/Return branch is behaviourally equivalent
to the unified single-character transition rule applied to the newline
character: it equals the spec-modelled `specTransition` at `'\n'`, just as the
general character branch equals `specTransition` at its character, and pressing
Enter is therefore indistinguishable from typing the logical character `'\n'`. -/
theorem C2_enter_equiv_newline (w : TypingInputWidget) (c : Char) :
    keyPressEvent w KeyEvent.enter = specTransition w '\n' ∧
    keyPressEvent w (KeyEvent.char c) = specTransition w c ∧
    keyPressEvent w KeyEvent.enter = keyPressEvent w (KeyEvent.char '\n') :=
  ⟨enter_eq_specTransition w, char_eq_specTransition w c,
    (enter_eq_specTransition w).trans (char_eq_specTransition w '\n').symm⟩

/-- Claim C3: a completion event is emitted exactly when a correct keystroke
advances the position to the length of the target; on target `"ab"` the inputs
`'a'`, `'x'`, `'b'` produce outcomes `(0, true)`, `(1, false)`, `(1, true)`,
final position 2, error count 1, keystroke count 3, and exactly one completion
signal, fired on the last keystroke. -/
theorem C3_completion_iff :
    (∀ (w : TypingInputWidget) (c : Char)
        (h : w.current_position < w.target_code.length),
      (keyPressEvent w (KeyEvent.char c)).complete = true ↔
        c = w.target_code[w.current_position] ∧
        w.current_position + 1 = w.target_code.length) ∧
    runOutcomes (set_target_code ⟨[], 0, 0, 0⟩ ['a', 'b'])
        [KeyEvent.char 'a', KeyEvent.char 'x', KeyEvent.char 'b'] =
      [(0, true), (1, false), (1, true)] ∧
    runEvents (set_target_code ⟨[], 0, 0, 0⟩ ['a', 'b'])
        [KeyEvent.char 'a', KeyEvent.char 'x', KeyEvent.char 'b'] =
      ⟨['a', 'b'], 2, 1, 3⟩ ∧
    runCompletions (set_target_code ⟨[], 0, 0, 0⟩ ['a', 'b'])
        [KeyEvent.char 'a', KeyEvent.char 'x', KeyEvent.char 'b'] = 1 ∧
    (keyPressEvent (⟨['a', 'b'], 1, 1, 2⟩ : TypingInputWidget)
        (KeyEvent.char 'b')).complete = true := by
  refine ⟨?_, by decide, by decide, by decide, by decide⟩
  intro w c h
  have hne := target_ne_nil_of_lt h
  simp only [keyPressEvent, if_neg hne, dif_pos h]
  by_cases hc : c = w.target_code[w.current_position]
  · simp [hc]
    omega
  · simp [hc]

/-- Witness for C3: the completion criterion applied to the state reached on
target `"ab"` after `'a'` then `'x'`, at the final keystroke `'b'`. -/
theorem C3_completion_iff_witness :
    (keyPressEvent (⟨['a', 'b'], 1, 1, 2⟩ : TypingInputWidget)
        (KeyEvent.char 'b')).complete = true :=
  (C3_completion_iff.1 ⟨['a', 'b'], 1, 1, 2⟩ 'b' (by decide)).mpr ⟨by decide, by decide⟩

/-- Claim C4: after `setTarget`, along every event sequence the session always
satisfies `position ≤ length(target)` and `errorCount ≤ totalKeystrokes`, and
position, error count and keystroke count are monotonically non-decreasing
across the sequence (stated via an arbitrary prefix and extension). -/
theorem C4_invariants_monotone (w₀ : TypingInputWidget) (text : List Char)
    (evs₁ evs₂ : List KeyEvent) :
    (runEvents (set_target_code w₀ text) evs₁).current_position ≤
      (runEvents (set_target_code w₀ text) evs₁).target_code.length ∧
    (runEvents (set_target_code w₀ text) evs₁).error_count ≤
      (runEvents (set_target_code w₀ text) evs₁).total_keystrokes ∧
    (runEvents (set_target_code w₀ text) evs₁).current_position ≤
      (runEvents (set_target_code w₀ text) (evs₁ ++ evs₂)).current_position ∧
    (runEvents (set_target_code w₀ text) evs₁).error_count ≤
      (runEvents (set_target_code w₀ text) (evs₁ ++ evs₂)).error_count ∧
    (runEvents (set_target_code w₀ text) evs₁).total_keystrokes ≤
      (runEvents (set_target_code w₀ text) (evs₁ ++ evs₂)).total_keystrokes := by
  obtain ⟨m1, m2, m3⟩ := runEvents_mono (runEvents (set_target_code w₀ text) evs₁) evs₂
  rw [runEvents_append]
  exact ⟨runEvents_pos_le _ _ (by simp [set_target_code]),
    runEvents_err_le _ _ (by simp [set_target_code]), m1, m2, m3⟩

/-- Claim C5: in the `Idle` state (no target set) and in the `Complete` state
(`position == length(target)`), every input event is ignored: the session state
is unchanged and neither a progress outcome nor a completion event is emitted. -/
theorem C5_idle_complete_ignored (w : TypingInputWidget) (ev : KeyEvent)
    (h : w.target_code = [] ∨ w.current_position = w.target_code.length) :
    keyPressEvent w ev = { state := w, progress := none, complete := false } :=
  keyPressEvent_frame w ev h

/-- Witness for C5: a completed single-character session ignores a further
keystroke. -/
theorem C5_idle_complete_ignored_witness :
    keyPressEvent (⟨['a'], 1, 0, 1⟩ : TypingInputWidget) (KeyEvent.char 'a') =
      { state := ⟨['a'], 1, 0, 1⟩, progress := none, complete := false } :=
  C5_idle_complete_ignored ⟨['a'], 1, 0, 1⟩ (KeyEvent.char 'a') (Or.inr (by decide))

/-- Claim C6: `set_target_code` installs the new target and resets position,
error count and keystroke count to exactly 0, independently of the prior
state. -/
theorem C6_set_target_resets (w w' : TypingInputWidget) (code : List Char) :
    set_target_code w code =
      { target_code := code, current_position := 0, error_count := 0,
        total_keystrokes := 0 } ∧
    set_target_code w code = set_target_code w' code :=
  ⟨rfl, rfl⟩

/-- Claim C7: `get_wpm` is 0 at `elapsed_seconds = 0` and otherwise equals
`(position / 5) / (elapsed_seconds / 60)`, computed from the current position
(correctly typed characters), as a pure function of the state. -/
theorem C7_wpm_formula (w : TypingInputWidget) (e : ℚ) :
    get_wpm w 0 = 0 ∧
    (e ≠ 0 → get_wpm w e = ((w.current_position : ℚ) / 5) / (e / 60)) := by
  constructor
  · simp [get_wpm]
  · intro he
    have h60 : e / 60 ≠ 0 := by simp [div_eq_zero_iff, he]
    simp [get_wpm, he, h60]

/-- Witness for C7: two correctly typed characters over 30 seconds give
`(2/5) / (1/2) = 4/5` words per minute. -/
theorem C7_wpm_formula_witness :
    get_wpm (⟨['a', 'b'], 2, 1, 3⟩ : TypingInputWidget) 30 = 4 / 5 := by
  have h := (C7_wpm_formula ⟨['a', 'b'], 2, 1, 3⟩ 30).2 (by norm_num)
  rw [h]
  norm_num

/-- Claim C8: a session whose target is empty is immediately complete: no
keystroke is ever evaluated (state unchanged, no outcomes, no completion
signal), the progress percentage is 0 without dividing by zero, the accuracy is
100, and the words-per-minute value is 0. -/
theorem C8_empty_target (w₀ : TypingInputWidget) (evs : List KeyEvent) (e : ℚ) :
    runEvents (set_target_code w₀ []) evs = set_target_code w₀ [] ∧
    (set_target_code w₀ []).current_position =
      (set_target_code w₀ []).target_code.length ∧
    runOutcomes (set_target_code w₀ []) evs = [] ∧
    runCompletions (set_target_code w₀ []) evs = 0 ∧
    get_progress_percentage (runEvents (set_target_code w₀ []) evs) = 0 ∧
    get_accuracy (runEvents (set_target_code w₀ []) evs) = 100 ∧
    get_wpm (runEvents (set_target_code w₀ []) evs) e = 0 := by
  have hrun := runEvents_frame (set_target_code w₀ []) evs (Or.inl rfl)
  refine ⟨hrun, rfl, runOutcomes_frame _ _ (Or.inl rfl),
    runCompletions_frame _ _ (Or.inl rfl), ?_, ?_, ?_⟩
  · rw [hrun]
    simp [get_progress_percentage, set_target_code]
  · rw [hrun]
    simp [get_accuracy, set_target_code]
  · rw [hrun]
    unfold get_wpm
    simp [set_target_code]

/-- Claim C9: the `InvalidPosition` error — reading the expected character at
or beyond the end of the target — is unreachable: the handler with a fallible
expected-character read succeeds on every state and event, agreeing with the
total handler. -/
theorem C9_invalid_position_unreachable (w : TypingInputWidget) (ev : KeyEvent) :
    keyPressEventE w ev = Except.ok (keyPressEvent w ev) :=
  keyPressEventE_eq_ok w ev

/-- Claim C10: after a single `setTarget`, the completion signal fires at most
once along any subsequent event sequence, never for an empty target, and only
on a keystroke that moves the position from strictly inside the target to
exactly its length. -/
theorem C10_completion_once (w₀ : TypingInputWidget) (text : List Char)
    (evs : List KeyEvent) (w : TypingInputWidget) (ev : KeyEvent) :
    runCompletions (set_target_code w₀ text) evs ≤ 1 ∧
    (text = [] → runCompletions (set_target_code w₀ text) evs = 0) ∧
    ((keyPressEvent w ev).complete = true →
      w.current_position < w.target_code.length ∧
      (keyPressEvent w ev).state.current_position = w.target_code.length) := by
  refine ⟨runCompletions_le_one _ _ (by simp [set_target_code]), ?_,
    keyPressEvent_complete_char w ev⟩
  intro ht
  exact runCompletions_frame _ _ (Or.inl (by simp [set_target_code, ht]))

/-- Witness for C10: the empty target produces no completion signal, and the
completing keystroke on target `"a"` lands exactly at the end. -/
theorem C10_completion_once_witness :
    runCompletions (set_target_code ⟨[], 0, 0, 0⟩ []) [KeyEvent.char 'a'] = 0 ∧
    (keyPressEvent (⟨['a'], 0, 0, 0⟩ : TypingInputWidget)
        (KeyEvent.char 'a')).state.current_position =
      (⟨['a'], 0, 0, 0⟩ : TypingInputWidget).target_code.length :=
  ⟨(C10_completion_once ⟨[], 0, 0, 0⟩ [] [KeyEvent.char 'a'] ⟨[], 0, 0, 0⟩
      KeyEvent.other).2.1 rfl,
    ((C10_completion_once ⟨[], 0, 0, 0⟩ [] [] ⟨['a'], 0, 0, 0⟩
        (KeyEvent.char 'a')).2.2 (by decide)).2⟩

end TypingGame
